import Mathlib

/-!
Verification development for the topic-selection pipeline
(`scripts/select_topic.py`, `scripts/generate_draft.py`,
`scripts/reset_topics.py`).

The Python code manipulates JSON records.  We embed them shallowly:
a topic record becomes a structure whose optional usage keys become
`Option String` fields (a key absent from the JSON object is `none`);
the registry file becomes a `Registry` structure; the transient
handoff file `.selected_topic.json` becomes an `Option Topic` slot in
a `PipelineState`.  The float weights 1.0, 1.5, 0.5, 0.75 are all
exactly representable in binary floating point, so modelling them in
`ℚ` is exact.  The call `random.choices(available, weights=weights)`
draws `u = random.random() ∈ [0,1)`, forms the cumulative weight list
and returns the element at index `bisect_right(cum, u * total, 0, n-1)`;
we model the random draw by passing `u : ℚ` explicitly and computing
that index (`choiceIndex`).
-/

/-- A topic record of `config/topics.json`.  The keys that the scripts
may delete or add (`selected_at`, `used_at`, `draft_path`, `stats`) are
optional; the payload of `stats` is opaque to the selection logic and is
modelled as a string. -/
structure Topic where
  id : String
  title : String
  category : String
  difficulty : String
  keywords : List String
  status : String
  selected_at : Option String
  used_at : Option String
  draft_path : Option String
  stats : Option String
deriving DecidableEq, Inhabited

/-- The registry file `config/topics.json`: the topic list plus the
`last_updated` timestamp. -/
structure Registry where
  topics : List Topic
  last_updated : String
deriving DecidableEq, Inhabited

/-- The state the selector touches: the registry file and the
single-slot handoff file `.selected_topic.json` (`none` when the file
does not exist). -/
structure PipelineState where
  registry : Registry
  handoff : Option Topic
deriving DecidableEq

/-- The only error `select_next_topic` can signal once the registry is
loaded: the `sys.exit(1)` taken when no topic has status `available`. -/
inductive SelectError where
  | noAvailableTopics
deriving DecidableEq

/-- Line 21 of `select_topic.py`: the records with status `available`. -/
def availableTopics (data : Registry) : List Topic :=
  data.topics.filter (fun t => t.status == "available")

/-- The sort key of line 32 of `select_topic.py`:
`x.get('used_at', '')` — a record lacking a timestamp gets the empty
string, which is the least string. -/
def usedKey (t : Topic) : String :=
  t.used_at.getD ""

/-- The descending order of lines 30-34 (`reverse=True`): `a` comes
before `b` when the key of `b` is at most the key of `a`. -/
def usedRel (a b : Topic) : Prop :=
  usedKey b ≤ usedKey a

instance : DecidableRel usedRel :=
  fun a b => inferInstanceAs (Decidable (usedKey b ≤ usedKey a))

instance : IsTotal Topic usedRel :=
  ⟨fun a b => le_total (usedKey b) (usedKey a)⟩

instance : IsTrans Topic usedRel :=
  ⟨fun _ _ _ hab hbc => le_trans hbc hab⟩

/-- Lines 30-34 of `select_topic.py`: the used records sorted
descending by timestamp (a stable sort, like Python's `sorted`). -/
def sortedUsed (data : Registry) : List Topic :=
  List.insertionSort usedRel (data.topics.filter (fun t => t.status == "used"))

/-- Lines 30-34: the top 3 of the descending order. -/
def usedTopics (data : Registry) : List Topic :=
  (sortedUsed data).take 3

/-- Line 36 of `select_topic.py`: the categories of the recently used
topics, duplicates allowed, used only for membership tests. -/
def usedCategories (data : Registry) : List String :=
  (usedTopics data).map (fun t => t.category)

/-- Lines 39-51 of `select_topic.py`: the weight of one available
record, built exactly as the code does — start at 1.0, multiply by 1.5
if the difficulty is `advanced`, then multiply by 0.5 if the category
is among the recently used categories. -/
def weight (t : Topic) (usedCats : List String) : ℚ :=
  let w : ℚ := 1
  let w := if t.difficulty = "advanced" then w * (3 / 2) else w
  let w := if t.category ∈ usedCats then w * (1 / 2) else w
  w

/-- The weight list of line 51, one entry per available record. -/
def selectionWeights (data : Registry) : List ℚ :=
  (availableTopics data).map (fun t => weight t (usedCategories data))

/-- The running sum of the first `k` weights. -/
def sumTake (ws : List ℚ) (k : ℕ) : ℚ :=
  (ws.take k).sum

/-- The cumulative weight list that `random.choices` builds with
`itertools.accumulate`. -/
def cumWeights (ws : List ℚ) : List ℚ :=
  (List.range ws.length).map (fun i => sumTake ws (i + 1))

/-- The index `random.choices` returns for the uniform draw `u`:
`bisect_right(cum_weights, u * total, 0, len(weights) - 1)`, i.e. the
number of cumulative weights at most `u * total`, clamped to the last
index. -/
def choiceIndex (ws : List ℚ) (u : ℚ) : ℕ :=
  min ((cumWeights ws).countP (fun c => decide (c ≤ u * ws.sum))) (ws.length - 1)

/-- Lines 21-66 of `select_topic.py` given the loaded registry: fail
when no topic is available, otherwise weight the available records,
draw the one at `choiceIndex` for the uniform sample `u`, write it to
the handoff slot (overwriting any prior content) and return it.  The
registry itself is never written. -/
def select_next_topic (s : PipelineState) (u : ℚ) : Except SelectError (Topic × PipelineState) :=
  let available := availableTopics s.registry
  if available.isEmpty then
    .error SelectError.noAvailableTopics
  else
    let ws := selectionWeights s.registry
    let topic := available.getD (choiceIndex ws u) default
    .ok (topic, ⟨s.registry, some topic⟩)

/-- Lines 133-139 of `generate_draft.py`: walk the topic list and
update the first record whose id matches, leaving the rest untouched
(the loop breaks after the first hit); when no record matches, the
list is returned unchanged. -/
def markUsedFirst (tid dir now : String) : List Topic → List Topic
  | [] => []
  | t :: ts =>
    if t.id = tid then
      { t with status := "used", used_at := some now, draft_path := some dir } :: ts
    else
      t :: markUsedFirst tid dir now ts

/-- Lines 125-146 of `generate_draft.py` (`update_topic_status`) at the
data level: mark the matching record used and stamp `last_updated`;
the file is rewritten unconditionally, matching record or not. -/
def update_topic_status (tid dir now : String) (data : Registry) : Registry :=
  { topics := markUsedFirst tid dir now data.topics, last_updated := now }

/-- Lines 14-19 of `reset_topics.py`: one record after the reset loop —
status forced to `available` and the usage keys `selected_at`,
`used_at`, `draft_path`, `stats` deleted. -/
def resetTopicRecord (t : Topic) : Topic :=
  { t with
    status := "available"
    selected_at := none
    used_at := none
    draft_path := none
    stats := none }

/-- Lines 14-24 of `reset_topics.py` at the data level: reset every
record unconditionally and stamp `last_updated`. -/
def reset_topics (data : Registry) (now : String) : Registry :=
  { topics := data.topics.map resetTopicRecord, last_updated := now }

/-- Exit-code model of the `select` entry point
(`select_topic.py`): `sys.exit(1)` when the registry file is missing
(line 15) or no topic is available (line 25), normal exit otherwise. -/
def select_exit_code (file : Option Registry) : ℕ :=
  match file with
  | none => 1
  | some data => if availableTopics data = [] then 1 else 0

/-- Exit-code model of the `generate` entry point
(`generate_draft.py`, `main`): `sys.exit(1)` when the handoff file is
missing (line 19), the API key is missing (line 42), the prompt
template is missing (line 30), or the API call fails (line 84); normal
exit otherwise. -/
def generate_exit_code (handoff : Option Topic) (apiKey : Option String)
    (tmpl : Option String) (apiOk : Bool) : ℕ :=
  match handoff with
  | none => 1
  | some _ =>
    match apiKey with
    | none => 1
    | some _ =>
      match tmpl with
      | none => 1
      | some _ => if apiOk then 0 else 1

/-- Exit-code model of the `reset` entry point (`reset_topics.py`):
when the registry file is missing the function prints
`File ... not found.` and returns normally (lines 7-9), so the process
exits 0; the success path also exits 0. -/
def reset_exit_code (file : Option Registry) : ℕ :=
  match file with
  | none => 0
  | some _ => 0

/-! ### Concrete sample data

The registry of the concrete scenario in the specification: topic `a`
is advanced in category `x`, topic `b` is basic in category `y`; two
further records are already used, one of them in category `y` with a
timestamp and one in category `z` without one. -/

def topicA : Topic :=
  ⟨"a", "Topic A", "x", "advanced", ["k1"], "available", none, none, none, none⟩

def topicB : Topic :=
  ⟨"b", "Topic B", "y", "basic", [], "available", none, none, none, none⟩

def topicU1 : Topic :=
  ⟨"u1", "Used 1", "y", "basic", [], "used", none, some "2024-03-01", some "d1", none⟩

def topicU2 : Topic :=
  ⟨"u2", "Used 2", "z", "basic", [], "used", none, none, none, none⟩

def regAB : Registry :=
  ⟨[topicA, topicB, topicU1, topicU2], "2024-03-02"⟩

def stateAB : PipelineState :=
  ⟨regAB, none⟩

/-- Concrete evaluation of the recently used categories of `regAB`:
the used record with the timestamp sorts first, the one without a
timestamp sorts last, and both categories are collected. -/
lemma usedCats_regAB : usedCategories regAB = ["y", "z"] := by
  simp +decide [usedCategories, usedTopics, sortedUsed, List.insertionSort,
    List.orderedInsert, usedRel, usedKey, regAB, topicA, topicB, topicU1, topicU2,
    String.le_iff_toList_le]

/-- Concrete evaluation of the available records of `regAB`. -/
lemma available_regAB : availableTopics regAB = [topicA, topicB] := by
  decide

/-! ### C1: the weight of an available record -/

/-- C1: every available record gets a weight that starts at 1.0, is
multiplied by 1.5 exactly when its difficulty is `advanced`, and is
multiplied by 0.5 exactly when its category is among the recently used
categories; the two adjustments are independent, so the final weight
is exactly one of 1.0, 1.5, 0.5, 0.75, and these are the weights the
selector pairs with the available records. -/
theorem weight_characterization (data : Registry) (t : Topic)
    (h : t ∈ availableTopics data) :
    weight t (usedCategories data)
      = (if t.difficulty = "advanced" then (3 : ℚ) / 2 else 1)
        * (if t.category ∈ usedCategories data then (1 : ℚ) / 2 else 1)
    ∧ ((t.difficulty = "advanced" ∧ t.category ∉ usedCategories data) →
        weight t (usedCategories data) = 3 / 2)
    ∧ ((t.difficulty ≠ "advanced" ∧ t.category ∈ usedCategories data) →
        weight t (usedCategories data) = 1 / 2)
    ∧ ((t.difficulty = "advanced" ∧ t.category ∈ usedCategories data) →
        weight t (usedCategories data) = 3 / 4)
    ∧ ((t.difficulty ≠ "advanced" ∧ t.category ∉ usedCategories data) →
        weight t (usedCategories data) = 1)
    ∧ (weight t (usedCategories data) = 1 ∨ weight t (usedCategories data) = 3 / 2 ∨
        weight t (usedCategories data) = 1 / 2 ∨ weight t (usedCategories data) = 3 / 4)
    ∧ selectionWeights data
        = (availableTopics data).map (fun s => weight s (usedCategories data)) := by
  by_cases hd : t.difficulty = "advanced" <;>
    by_cases hc : t.category ∈ usedCategories data <;>
      simp [weight, selectionWeights, hd, hc] <;> norm_num

/-- C1 witness: in the concrete registry, the advanced topic `a` (whose
category `x` is not recently used) gets weight 1.5 and the basic topic
`b` (whose category `y` is recently used) gets weight 0.5. -/
theorem weight_characterization_app :
    topicA ∈ availableTopics regAB ∧
    weight topicA (usedCategories regAB) = 3 / 2 ∧
    weight topicB (usedCategories regAB) = 1 / 2 := by
  have hA := weight_characterization regAB topicA (by decide)
  have hB := weight_characterization regAB topicB (by decide)
  refine ⟨by decide, ?_, ?_⟩
  · exact hA.2.1 ⟨rfl, by rw [usedCats_regAB]; decide⟩
  · exact hB.2.2.1 ⟨by decide, by rw [usedCats_regAB]; decide⟩

/-! ### C10: weight bounds and positivity of the total -/

/-- Every weight the selector can produce lies in `[1/2, 3/2]` and is
strictly positive. -/
lemma weight_bounds (t : Topic) (cats : List String) :
    (1 : ℚ) / 2 ≤ weight t cats ∧ weight t cats ≤ 3 / 2 ∧ 0 < weight t cats := by
  by_cases hd : t.difficulty = "advanced" <;>
    by_cases hc : t.category ∈ cats <;>
      simp [weight, hd, hc] <;> norm_num

/-- The weight list is nonempty whenever some topic is available. -/
lemma selectionWeights_ne_nil (data : Registry) (h : availableTopics data ≠ []) :
    selectionWeights data ≠ [] := by
  simpa [selectionWeights, List.map_eq_nil_iff] using h

/-- C10: whenever at least one topic is available, every computed
weight lies in the closed interval `[1/2, 3/2]` — in particular every
weight is strictly positive — and the sum of the weights over the
(nonempty) available set is strictly positive, so the normalizing
denominator of the weighted draw is never zero. -/
theorem selection_weights_bounds (data : Registry) (h : availableTopics data ≠ []) :
    (∀ w ∈ selectionWeights data, (1 : ℚ) / 2 ≤ w ∧ w ≤ 3 / 2 ∧ 0 < w)
    ∧ 0 < (selectionWeights data).sum := by
  refine ⟨?_, ?_⟩
  · intro w hw
    obtain ⟨t, -, rfl⟩ := List.mem_map.mp hw
    exact weight_bounds t _
  · refine List.sum_pos _ ?_ (selectionWeights_ne_nil data h)
    intro w hw
    obtain ⟨t, -, rfl⟩ := List.mem_map.mp hw
    exact (weight_bounds t _).2.2

/-- C10 witness: the concrete registry has available topics, and its
weight list satisfies the bounds. -/
theorem selection_weights_bounds_app :
    availableTopics regAB ≠ [] ∧
    ((∀ w ∈ selectionWeights regAB, (1 : ℚ) / 2 ≤ w ∧ w ≤ 3 / 2 ∧ 0 < w)
      ∧ 0 < (selectionWeights regAB).sum) :=
  ⟨by decide, selection_weights_bounds regAB (by decide)⟩

/-! ### C3: the empty-availability error -/

/-- C3: once the registry is loaded, the selector fails with
`noAvailableTopics` exactly when no record has status `available`
(in the script this is a `sys.exit(1)`, terminal for the process);
with at least one available record it never signals that error. -/
theorem select_no_available (s : PipelineState) (u : ℚ) :
    (availableTopics s.registry = [] →
      select_next_topic s u = .error SelectError.noAvailableTopics)
    ∧ (availableTopics s.registry ≠ [] →
      ∀ e, select_next_topic s u ≠ .error e) := by
  constructor
  · intro h
    simp [select_next_topic, h]
  · intro h e
    have hne : (availableTopics s.registry).isEmpty = false :=
      List.isEmpty_eq_false.mpr h
    simp [select_next_topic, hne]

/-- C3 witness: a registry whose only record is used makes the selector
fail with `noAvailableTopics`, and the concrete registry with available
records never produces that error. -/
theorem select_no_available_app :
    select_next_topic ⟨⟨[topicU1], "t0"⟩, none⟩ 0 = .error SelectError.noAvailableTopics
    ∧ (∀ e, select_next_topic stateAB 0 ≠ .error e) :=
  ⟨(select_no_available ⟨⟨[topicU1], "t0"⟩, none⟩ 0).1 (by decide),
   (select_no_available stateAB 0).2 (by decide)⟩

/-! ### C4: successful selection and its frame -/

/-- The chosen index is always a valid position in the weight list. -/
lemma choiceIndex_lt (ws : List ℚ) (u : ℚ) (h : ws ≠ []) :
    choiceIndex ws u < ws.length :=
  lt_of_le_of_lt (min_le_right _ _) (Nat.sub_lt (List.length_pos.mpr h) one_pos)

/-- The chosen index is a valid position in the available list. -/
lemma choiceIndex_lt_available (data : Registry) (u : ℚ)
    (h : availableTopics data ≠ []) :
    choiceIndex (selectionWeights data) u < (availableTopics data).length := by
  have := choiceIndex_lt (selectionWeights data) u (selectionWeights_ne_nil data h)
  simpa [selectionWeights] using this

/-- C4: with at least one available record, selection succeeds and
returns a record that is in the available set (hence has status
`available` at call time); the resulting state keeps the registry —
every field of every stored record — unchanged and has exactly the
returned record in the handoff slot (overwriting any prior one). -/
theorem select_frame (s : PipelineState) (u : ℚ)
    (h : availableTopics s.registry ≠ []) :
    ∃ t : Topic,
      select_next_topic s u = .ok (t, ⟨s.registry, some t⟩)
      ∧ t ∈ availableTopics s.registry
      ∧ t.status = "available" := by
  have hne : (availableTopics s.registry).isEmpty = false :=
    List.isEmpty_eq_false.mpr h
  have hlt := choiceIndex_lt_available s.registry u h
  refine ⟨(availableTopics s.registry).getD
      (choiceIndex (selectionWeights s.registry) u) default, ?_, ?_, ?_⟩
  · simp [select_next_topic, hne]
  · rw [List.getD_eq_getElem _ _ hlt]
    exact List.getElem_mem hlt
  · have hmem : (availableTopics s.registry).getD
        (choiceIndex (selectionWeights s.registry) u) default
          ∈ availableTopics s.registry := by
      rw [List.getD_eq_getElem _ _ hlt]
      exact List.getElem_mem hlt
    have := (List.mem_filter.mp hmem).2
    simpa using this

/-- C4 witness: on the concrete registry, selection with sample 0
succeeds, returns an available record and leaves the registry intact
while filling the handoff slot. -/
theorem select_frame_app :
    ∃ t : Topic,
      select_next_topic stateAB 0 = .ok (t, ⟨stateAB.registry, some t⟩)
      ∧ t ∈ availableTopics stateAB.registry
      ∧ t.status = "available" :=
  select_frame stateAB 0 (by decide)

/-! ### C7: the reset operation -/

/-- Resetting a record twice is the same as resetting it once. -/
lemma resetTopicRecord_idem (t : Topic) :
    resetTopicRecord (resetTopicRecord t) = resetTopicRecord t := rfl

/-- C7: resetting sets every record's status to `available` and strips
all usage metadata (`selected_at`, `used_at`, `draft_path`, `stats`)
from every record unconditionally — the map runs over all records,
including already-available ones; running it twice leaves the topic
records equal to running it once; and afterwards no record carries a
used-timestamp. -/
theorem reset_topics_spec (data : Registry) (now now2 : String) :
    (∀ t ∈ (reset_topics data now).topics,
      t.status = "available" ∧ t.selected_at = none ∧ t.used_at = none
      ∧ t.draft_path = none ∧ t.stats = none)
    ∧ (reset_topics (reset_topics data now) now2).topics
        = (reset_topics data now).topics
    ∧ (reset_topics data now).topics = data.topics.map resetTopicRecord
    ∧ (reset_topics data now).topics.length = data.topics.length
    ∧ (reset_topics data now).last_updated = now := by
  refine ⟨?_, ?_, rfl, by simp [reset_topics], rfl⟩
  · intro t ht
    obtain ⟨s, -, rfl⟩ := List.mem_map.mp ht
    simp [resetTopicRecord]
  · simp [reset_topics, List.map_map, Function.comp_def, resetTopicRecord_idem]

/-- C7 witness: in the concrete registry, the previously used record
comes out available and stripped, and the reset is idempotent on the
topic records. -/
theorem reset_topics_spec_app :
    ((resetTopicRecord topicU1).status = "available"
      ∧ (resetTopicRecord topicU1).selected_at = none
      ∧ (resetTopicRecord topicU1).used_at = none
      ∧ (resetTopicRecord topicU1).draft_path = none
      ∧ (resetTopicRecord topicU1).stats = none)
    ∧ (reset_topics (reset_topics regAB "t1") "t2").topics
        = (reset_topics regAB "t1").topics :=
  ⟨(reset_topics_spec regAB "t1" "t2").1 (resetTopicRecord topicU1) (by decide),
   (reset_topics_spec regAB "t1" "t2").2.1⟩

/-! ### C8: markUsed touches only the matched record -/

/-- `markUsedFirst` never changes the number of records. -/
lemma markUsedFirst_length (tid dir now : String) (ts : List Topic) :
    (markUsedFirst tid dir now ts).length = ts.length := by
  induction ts with
  | nil => rfl
  | cons t ts ih => by_cases h : t.id = tid <;> simp [markUsedFirst, h, ih]

/-- A record whose id differs from the marked one is returned
verbatim, at its original position. -/
lemma markUsedFirst_getD_of_ne (tid dir now : String) (ts : List Topic) (i : ℕ)
    (hi : i < ts.length) (hne : (ts.getD i default).id ≠ tid) :
    (markUsedFirst tid dir now ts).getD i default = ts.getD i default := by
  induction ts generalizing i with
  | nil => simp at hi
  | cons t ts ih =>
    by_cases h : t.id = tid
    · cases i with
      | zero => simp at hne; exact absurd h hne
      | succ j => simp [markUsedFirst, h]
    · cases i with
      | zero => simp [markUsedFirst, h]
      | succ j =>
        simp only [markUsedFirst, if_neg h, List.getD_cons_succ]
        exact ih j (by simpa using hi) (by simpa using hne)

/-- C8: marking topic A used changes no field of any record whose id
is not A's — the update rewrites the registry with the same list
except for the first matched record, plus a fresh `last_updated`. -/
theorem update_frame (data : Registry) (tid dir now : String) :
    (update_topic_status tid dir now data).topics.length = data.topics.length
    ∧ ∀ i : ℕ, i < data.topics.length →
        (data.topics.getD i default).id ≠ tid →
        (update_topic_status tid dir now data).topics.getD i default
          = data.topics.getD i default :=
  ⟨markUsedFirst_length tid dir now data.topics,
   fun i hi hne => markUsedFirst_getD_of_ne tid dir now data.topics i hi hne⟩

/-- C8 witness: marking topic `a` used in the concrete registry leaves
record `b` (position 1) unchanged. -/
theorem update_frame_app :
    (1 < regAB.topics.length ∧ (regAB.topics.getD 1 default).id ≠ "a")
    ∧ (update_topic_status "a" "d0" "t3" regAB).topics.getD 1 default
        = regAB.topics.getD 1 default :=
  ⟨⟨by decide, by decide⟩,
   (update_frame regAB "a" "d0" "t3").2 1 (by decide) (by decide)⟩

/-! ### C6: markUsed on an id that is not in the registry -/

/-- When no record matches, the loop leaves the list unchanged. -/
lemma markUsedFirst_not_mem (tid dir now : String) (ts : List Topic)
    (h : ∀ t ∈ ts, t.id ≠ tid) : markUsedFirst tid dir now ts = ts := by
  induction ts with
  | nil => rfl
  | cons t ts ih =>
    rw [markUsedFirst, if_neg (h t (by simp)), ih (fun s hs => h s (by simp [hs]))]

/-- C6 counterexample: `update_topic_status` (the code behind
`markUsed`) has no failure path at all — it is a total function on
registries — and on an id absent from the concrete registry it does
NOT leave the registry unchanged: the file is rewritten with a fresh
`last_updated` timestamp, so the stored registry is not byte-for-byte
identical, refuting the claim at this input. -/
theorem update_missing_id_counterexample :
    update_topic_status "zzz" "d" "t9" regAB ≠ regAB
    ∧ (update_topic_status "zzz" "d" "t9" regAB).last_updated ≠ regAB.last_updated := by
  constructor <;> decide

/-- C6 amended: on an id absent from the registry, `markUsed` signals
no error; every topic record is left unchanged, but the registry's
`last_updated` is set to the current time and the file is rewritten. -/
theorem update_missing_id (data : Registry) (tid dir now : String)
    (h : ∀ t ∈ data.topics, t.id ≠ tid) :
    (update_topic_status tid dir now data).topics = data.topics
    ∧ (update_topic_status tid dir now data).last_updated = now :=
  ⟨markUsedFirst_not_mem tid dir now data.topics h, rfl⟩

/-- C6 witness: the concrete registry contains no record with id
`zzz`, and updating that id keeps all topic records while stamping the
new timestamp. -/
theorem update_missing_id_app :
    (update_topic_status "zzz" "d" "t9" regAB).topics = regAB.topics
    ∧ (update_topic_status "zzz" "d" "t9" regAB).last_updated = "t9" :=
  update_missing_id regAB "zzz" "d" "t9" (by decide)

/-! ### C9: CLI exit codes -/

/-- C9 counterexample: the reset entry point, run with the registry
file missing — a fatal error according to the claim — prints
`File ... not found.` and returns normally, so the process exits 0,
not nonzero. -/
theorem reset_exit_counterexample : reset_exit_code none = 0 := rfl

/-- C9 amended: the select and generate entry points exit nonzero on
every fatal error (missing registry file, empty availability, missing
handoff file, missing credential, missing template, failed API call),
but the reset entry point always exits 0 — also when the registry file
is missing. -/
theorem cli_exit_codes (d : Registry) (h : availableTopics d = []) :
    select_exit_code none = 1
    ∧ select_exit_code (some d) = 1
    ∧ (∀ k t b, generate_exit_code none k t b = 1)
    ∧ (∀ tp t b, generate_exit_code (some tp) none t b = 1)
    ∧ (∀ tp k b, generate_exit_code (some tp) (some k) none b = 1)
    ∧ (∀ tp k t, generate_exit_code (some tp) (some k) (some t) false = 1)
    ∧ (∀ f, reset_exit_code f = 0) := by
  refine ⟨rfl, by simp [select_exit_code, h], fun _ _ _ => rfl, fun _ _ _ => rfl,
    fun _ _ _ => rfl, fun _ _ _ => rfl, fun f => ?_⟩
  cases f <;> rfl

/-- C9 witness: a registry whose only record is used has empty
availability; on it select exits 1 while reset exits 0 on a missing
file. -/
theorem cli_exit_codes_app :
    availableTopics ⟨[topicU1], "t0"⟩ = []
    ∧ select_exit_code (some ⟨[topicU1], "t0"⟩) = 1
    ∧ reset_exit_code none = 0 :=
  ⟨by decide, (cli_exit_codes ⟨[topicU1], "t0"⟩ (by decide)).2.1,
   (cli_exit_codes ⟨[topicU1], "t0"⟩ (by decide)).2.2.2.2.2.2 none⟩

/-! ### C2: the recently used categories -/

/-- The empty string is the least string, so a record lacking a
used-timestamp sorts as earliest. -/
lemma empty_usedKey_le (t s : Topic) (h : t.used_at = none) :
    usedKey t ≤ usedKey s := by
  rw [usedKey, h, Option.getD_none, String.le_iff_toList_le]
  exact List.nil_le

/-- C2: the recently-used-categories collection is computed from
exactly the records with status `used`, ordered descending by
used-timestamp (a record lacking a timestamp gets the least key, the
empty string), truncated to the top 3, and projected to categories
(duplicates allowed; the collection is a list that the weighting only
tests membership in). -/
theorem used_categories_spec (data : Registry) :
    (∀ t ∈ usedTopics data, t.status = "used")
    ∧ List.Sorted usedRel (usedTopics data)
    ∧ (usedTopics data).length
        = min 3 (data.topics.filter (fun t => t.status == "used")).length
    ∧ List.Perm (usedTopics data ++ (sortedUsed data).drop 3)
        (data.topics.filter (fun t => t.status == "used"))
    ∧ (∀ t ∈ usedTopics data, ∀ s ∈ (sortedUsed data).drop 3, usedKey s ≤ usedKey t)
    ∧ usedCategories data = (usedTopics data).map (fun t => t.category)
    ∧ (∀ t s : Topic, t.used_at = none → usedKey t ≤ usedKey s) := by
  have hsort : List.Sorted usedRel (sortedUsed data) :=
    List.sorted_insertionSort usedRel _
  have hperm : List.Perm (sortedUsed data)
      (data.topics.filter (fun t => t.status == "used")) :=
    List.perm_insertionSort usedRel _
  have hsplit : List.Pairwise usedRel
      ((sortedUsed data).take 3 ++ (sortedUsed data).drop 3) := by
    rwa [List.take_append_drop]
  refine ⟨?_, ?_, ?_, ?_, ?_, rfl, empty_usedKey_le⟩
  · intro t ht
    have hmem : t ∈ data.topics.filter (fun t => t.status == "used") :=
      hperm.subset (List.mem_of_mem_take ht)
    simpa using (List.mem_filter.mp hmem).2
  · exact List.Pairwise.sublist (List.take_sublist 3 _) hsort
  · simp [usedTopics, sortedUsed, List.length_take, List.length_insertionSort]
  · rw [usedTopics, List.take_append_drop]
    exact hperm
  · exact fun t ht s hs => (List.pairwise_append.mp hsplit).2.2 t ht s hs

/-- C2 witness: in the concrete registry, the used records are the one
in category `y` (stamped) and the one in category `z` (no timestamp,
sorting last); the collected categories are `y` then `z`, and the
record without a timestamp has the least key. -/
theorem used_categories_spec_app :
    usedCategories regAB = ["y", "z"]
    ∧ (topicU1 ∈ usedTopics regAB → topicU1.status = "used")
    ∧ (topicU2.used_at = none → usedKey topicU2 ≤ usedKey topicU1) :=
  ⟨usedCats_regAB,
   fun h => (used_categories_spec regAB).1 topicU1 h,
   fun h => (used_categories_spec regAB).2.2.2.2.2.2 topicU2 topicU1 h⟩

/-! ### C5: the weighted random draw

`random.choices` draws `u` uniformly from `[0,1)` and returns the
record whose cumulative-weight interval contains `u * total`.  We
prove that the set of samples `u` that select index `i` is exactly the
half-open interval from `sumTake ws i / total` to
`sumTake ws (i+1) / total`, whose length is `weight(i) / total`: under
the uniform distribution on `[0,1)` the probability of drawing record
`i` is its normalized weight, which is what empirical frequencies
converge to over repeated trials. -/

lemma sumTake_zero (ws : List ℚ) : sumTake ws 0 = 0 := rfl

lemma sumTake_succ (ws : List ℚ) (k : ℕ) (h : k < ws.length) :
    sumTake ws (k + 1) = sumTake ws k + ws.getD k 0 := by
  rw [sumTake, sumTake, List.sum_take_succ ws k h, List.getD_eq_getElem ws 0 h]

lemma sumTake_length (ws : List ℚ) : sumTake ws ws.length = ws.sum := by
  rw [sumTake, List.take_length]

lemma sumTake_mono (ws : List ℚ) (h0 : ∀ w ∈ ws, 0 ≤ w) {a b : ℕ} (hab : a ≤ b) :
    sumTake ws a ≤ sumTake ws b := by
  induction b, hab using Nat.le_induction with
  | base => exact le_refl _
  | succ b _ ih =>
    rcases Nat.lt_or_ge b ws.length with hb | hb
    · refine le_trans ih ?_
      rw [sumTake_succ ws b hb]
      have hmem : ws.getD b 0 ∈ ws := by
        rw [List.getD_eq_getElem ws 0 hb]
        exact List.getElem_mem hb
      exact le_add_of_nonneg_right (h0 _ hmem)
    · have heq : sumTake ws (b + 1) = sumTake ws b := by
        rw [sumTake, sumTake, List.take_of_length_le hb,
          List.take_of_length_le (le_trans hb (Nat.le_succ b))]
      rw [heq]
      exact ih

/-- Counting over `range n` of a predicate that holds exactly below
`i` gives `i`. -/
lemma countP_range_eq (p : ℕ → Bool) :
    ∀ n i : ℕ, i ≤ n → (∀ j, j < i → p j = true) →
      (∀ j, i ≤ j → j < n → p j = false) →
      (List.range n).countP p = i := by
  intro n
  induction n with
  | zero =>
    intro i hi _ _
    have : i = 0 := Nat.le_zero.mp hi
    simp [this]
  | succ n ih =>
    intro i hi h1 h2
    rw [List.range_succ, List.countP_append]
    by_cases hin : i ≤ n
    · have hpn : p n = false := h2 n hin (Nat.lt_succ_self n)
      rw [ih i hin h1 (fun j hij hj => h2 j hij (Nat.lt_succ_of_lt hj))]
      simp [List.countP_cons, hpn]
    · have hi' : i = n + 1 := Nat.le_antisymm hi (Nat.not_le.mp hin)
      subst hi'
      have hpn : p n = true := h1 n (Nat.lt_succ_self n)
      rw [ih n le_rfl (fun j hj => h1 j (Nat.lt_succ_of_lt hj))
        (fun j h1j h2j => absurd (lt_of_le_of_lt h1j h2j) (lt_irrefl n))]
      simp [List.countP_cons, hpn]

/-- The bisection count over the cumulative weights of the interval
containing `x`. -/
lemma cum_countP_eq (ws : List ℚ) (h0 : ∀ w ∈ ws, 0 ≤ w) (x : ℚ) (i : ℕ)
    (hi : i < ws.length) (hl : sumTake ws i ≤ x) (hr : x < sumTake ws (i + 1)) :
    (cumWeights ws).countP (fun c => decide (c ≤ x)) = i := by
  rw [cumWeights, List.countP_map]
  apply countP_range_eq _ ws.length i (le_of_lt hi)
  · intro j hj
    have hle : sumTake ws (j + 1) ≤ sumTake ws i :=
      sumTake_mono ws h0 (Nat.succ_le_of_lt hj)
    simpa [Function.comp] using le_trans hle hl
  · intro j hij hjn
    have hge : sumTake ws (i + 1) ≤ sumTake ws (j + 1) :=
      sumTake_mono ws h0 (Nat.succ_le_succ hij)
    simpa [Function.comp] using not_le.mpr (lt_of_lt_of_le hr hge)

/-- Discrete intermediate value: every `x` in `[0, Σ ws)` lies in some
cumulative interval. -/
lemma exists_interval (ws : List ℚ) (h0 : ∀ w ∈ ws, 0 ≤ w) (hne : ws ≠ [])
    (x : ℚ) (hx0 : 0 ≤ x) (hx1 : x < ws.sum) :
    ∃ i, i < ws.length ∧ sumTake ws i ≤ x ∧ x < sumTake ws (i + 1) := by
  have hlen : 0 < ws.length := List.length_pos.mpr hne
  have htop : x < sumTake ws (ws.length - 1 + 1) := by
    rw [Nat.sub_add_cancel hlen, sumTake_length]
    exact hx1
  have hP : ∃ k, x < sumTake ws (k + 1) := ⟨ws.length - 1, htop⟩
  refine ⟨Nat.find hP, ?_, ?_, Nat.find_spec hP⟩
  · exact lt_of_le_of_lt (Nat.find_min' hP htop) (Nat.sub_lt hlen one_pos)
  · cases hfi : Nat.find hP with
    | zero => rw [sumTake_zero]; exact hx0
    | succ m =>
      have hm : ¬ x < sumTake ws (m + 1) := Nat.find_min hP (by omega)
      exact not_lt.mp hm

/-- Characterization of the drawn index: for a uniform sample
`u ∈ [0,1)` over positive weights, the draw picks index `i` exactly
when `u * total` falls in the `i`-th cumulative interval. -/
lemma choiceIndex_eq_iff (ws : List ℚ) (hpos : ∀ w ∈ ws, 0 < w) (hne : ws ≠ [])
    (u : ℚ) (h0 : 0 ≤ u) (h1 : u < 1) (i : ℕ) (hi : i < ws.length) :
    choiceIndex ws u = i ↔
      sumTake ws i ≤ u * ws.sum ∧ u * ws.sum < sumTake ws (i + 1) := by
  have h0' : ∀ w ∈ ws, 0 ≤ w := fun w hw => le_of_lt (hpos w hw)
  have hsum : 0 < ws.sum := List.sum_pos ws hpos hne
  have hx0 : 0 ≤ u * ws.sum := mul_nonneg h0 (le_of_lt hsum)
  have hx1 : u * ws.sum < ws.sum := mul_lt_of_lt_one_left hsum h1
  constructor
  · intro hEq
    obtain ⟨j, hj, hjl, hjr⟩ := exists_interval ws h0' hne _ hx0 hx1
    have hc : choiceIndex ws u = j := by
      rw [choiceIndex, cum_countP_eq ws h0' _ j hj hjl hjr]
      exact min_eq_left (Nat.le_sub_one_of_lt hj)
    rw [hc] at hEq
    exact hEq ▸ ⟨hjl, hjr⟩
  · intro hB
    rw [choiceIndex, cum_countP_eq ws h0' _ i hi hB.1 hB.2]
    exact min_eq_left (Nat.le_sub_one_of_lt hi)

/-- Every selection weight is positive. -/
lemma selectionWeights_pos (data : Registry) :
    ∀ w ∈ selectionWeights data, 0 < w := by
  intro w hw
  obtain ⟨t, -, rfl⟩ := List.mem_map.mp hw
  exact (weight_bounds t _).2.2

/-- C5: with a uniform sample `u ∈ [0,1)`, the selector returns the
available record at `choiceIndex`, and that index equals `i` exactly
when `u` lies in the half-open interval from `sumTake i / Σ` to
`sumTake (i+1) / Σ`, whose length is the `i`-th weight divided by the
total — so under the uniform distribution on `[0,1)` the probability
of drawing record `i` is weight(i) / Σ weights, the value empirical
frequencies converge to. -/
theorem select_weighted_draw (s : PipelineState) (u : ℚ) (i : ℕ)
    (hi : i < (availableTopics s.registry).length) (h0 : 0 ≤ u) (h1 : u < 1) :
    (choiceIndex (selectionWeights s.registry) u = i ↔
      sumTake (selectionWeights s.registry) i / (selectionWeights s.registry).sum ≤ u
      ∧ u < sumTake (selectionWeights s.registry) (i + 1) / (selectionWeights s.registry).sum)
    ∧ sumTake (selectionWeights s.registry) (i + 1) / (selectionWeights s.registry).sum
        - sumTake (selectionWeights s.registry) i / (selectionWeights s.registry).sum
        = (selectionWeights s.registry).getD i 0 / (selectionWeights s.registry).sum
    ∧ select_next_topic s u
        = .ok ((availableTopics s.registry).getD
              (choiceIndex (selectionWeights s.registry) u) default,
            ⟨s.registry, some ((availableTopics s.registry).getD
              (choiceIndex (selectionWeights s.registry) u) default)⟩) := by
  have hne : availableTopics s.registry ≠ [] := by
    intro hnil
    rw [hnil] at hi
    simp at hi
  have hwne : selectionWeights s.registry ≠ [] := selectionWeights_ne_nil s.registry hne
  have hpos := selectionWeights_pos s.registry
  have hsum : 0 < (selectionWeights s.registry).sum :=
    List.sum_pos _ hpos hwne
  have hiw : i < (selectionWeights s.registry).length := by
    simpa [selectionWeights] using hi
  refine ⟨?_, ?_, ?_⟩
  · rw [choiceIndex_eq_iff _ hpos hwne u h0 h1 i hiw, div_le_iff₀ hsum, lt_div_iff₀ hsum]
  · rw [div_sub_div_same, sumTake_succ _ i hiw, add_sub_cancel_left]
  · have hfalse : (availableTopics s.registry).isEmpty = false :=
      List.isEmpty_eq_false.mpr hne
    simp [select_next_topic, hfalse]

/-- C5 witness: on the concrete registry (weights 1.5 and 0.5, total
2) the sample `u = 0` selects index 0, whose interval is `[0, 3/4)` of
length `3/4`, and selection returns the drawn record. -/
theorem select_weighted_draw_app :
    (choiceIndex (selectionWeights stateAB.registry) 0 = 0 ↔
      sumTake (selectionWeights stateAB.registry) 0 / (selectionWeights stateAB.registry).sum ≤ 0
      ∧ (0 : ℚ) < sumTake (selectionWeights stateAB.registry) 1 / (selectionWeights stateAB.registry).sum)
    ∧ sumTake (selectionWeights stateAB.registry) 1 / (selectionWeights stateAB.registry).sum
        - sumTake (selectionWeights stateAB.registry) 0 / (selectionWeights stateAB.registry).sum
        = (selectionWeights stateAB.registry).getD 0 0 / (selectionWeights stateAB.registry).sum
    ∧ select_next_topic stateAB 0
        = .ok ((availableTopics stateAB.registry).getD
              (choiceIndex (selectionWeights stateAB.registry) 0) default,
            ⟨stateAB.registry, some ((availableTopics stateAB.registry).getD
              (choiceIndex (selectionWeights stateAB.registry) 0) default)⟩) :=
  select_weighted_draw stateAB 0 0 (by decide) (by norm_num) (by norm_num)
